import Mathlib

/-!
Shallow embedding of KEDA's `pkg/scalers/scalersconfig/typed_config.go` and a
verification of its declarative configuration-materialization engine.

The Go file populates the fields of a caller-supplied structure from three flat
string maps (`TriggerMetadata`, `ResolvedEnv`, `AuthParams`), driven by the
`keda:"..."` field-tag mini-language.  The embedding below mirrors the Go code
function by function:

* Go `map[string]string` is modelled as an association list with first-match
  lookup (`mapLookup`); Go's comma-ok index is `mapLookup`, the plain index
  (zero value on miss) is `goGet`.
* Go stdlib helpers used by the code are modelled over `List Char`
  (`goSplit` for `strings.Split` with the single-character separators that the
  code uses, `goTrim` for `strings.TrimSpace`, `goQuote` for the `%q` verb on
  the plain identifiers that occur here, `goFmtStrList` for the `%v` verb on a
  slice of strings).
* Reflective field access is modelled by the closed universe `FieldType` /
  `FieldValue` of field shapes the engine dispatches on (string, int, bool,
  map, slice); `encoding/json` unmarshalling of the two scalar shapes is
  modelled by `jsonUnmarshalInt` / `jsonUnmarshalBool` (the text of the
  wrapped stdlib decode error is abstracted as the offending raw value).
* Mutation of a `reflect.Value` is modelled by explicit state passing: every
  setter takes the field's current value and returns the value the field holds
  after the call, together with an optional error string.
-/

namespace ScalersConfig

/-- Split a character list at every occurrence of the separator character. -/
def splitListCh (sep : Char) : List Char → List (List Char)
  | [] => [[]]
  | c :: cs =>
    match splitListCh sep cs with
    | [] => [[]]
    | g :: gs => if c == sep then [] :: g :: gs else (c :: g) :: gs

/-- Model of Go `strings.Split` for the single-character separators used by
`typed_config.go` (`,`, `=`, `;`).  Like the Go function, splitting the empty
string yields `[""]`. -/
def goSplit (sep : Char) (s : String) : List String :=
  (splitListCh sep s.toList).map (fun cs => String.mk cs)

/-- Model of Go `strings.TrimSpace`: drop leading and trailing whitespace. -/
def goTrim (s : String) : String :=
  String.mk (((s.toList.dropWhile Char.isWhitespace).reverse.dropWhile
    Char.isWhitespace).reverse)

/-- Model of the `%q` format verb on the plain parameter names occurring here
(no characters that Go would escape). -/
def goQuote (s : String) : String := "\"" ++ s ++ "\""

/-- Join a list of strings with a separator string. -/
def goJoin (sepr : String) : List String → String
  | [] => ""
  | [s] => s
  | s :: rest => s ++ sepr ++ goJoin sepr rest

/-- Model of the `%v` format verb on a Go slice of strings, as used for the
`[]ParsingOrder` value in the missing-parameter error. -/
def goFmtStrList (l : List String) : String := "[" ++ goJoin " " l ++ "]"

/-- Association-list model of a Go `map[string]string`; comma-ok lookup. -/
def mapLookup (m : List (String × String)) (k : String) : Option String :=
  match m.find? (fun pr => pr.1 == k) with
  | some pr => some pr.2
  | none => none

/-- Go map index without the ok flag: the zero value `""` on a miss. -/
def goGet (m : List (String × String)) (k : String) : String :=
  (mapLookup m k).getD ""

/-- The `ScalerConfig` fields read by `typed_config.go`: the three sources. -/
structure ScalerConfig where
  TriggerMetadata : List (String × String) := []
  ResolvedEnv : List (String × String) := []
  AuthParams : List (String × String) := []

/-- Go struct `Params`: the descriptor parsed from a `keda` field tag.  The Go
`ParsingOrder` type is a string type, so parsing-order entries stay strings. -/
structure Params where
  Name : String := ""
  Optional : Bool := false
  ParsingOrder : List String := []
  Default : String := ""
  Deprecated : String := ""

/-- Go `Params.IsDeprecated`: true iff the deprecation marker is non-empty. -/
def Params.IsDeprecated (p : Params) : Bool :=
  p.Deprecated != ""

/-- Go `Params.DeprecatedMessage`: empty for the bare `deprecated` sentinel,
otherwise `": <marker>"`. -/
def Params.DeprecatedMessage (p : Params) : String :=
  if p.Deprecated == "deprecated" then "" else ": " ++ p.Deprecated

/-- The `switch po` statement of Go `configParamValue`: the source map and the
key to look up for one parsing-order entry.  `resolvedEnv` looks its key up
indirectly: `TriggerMetadata[Name + "FromEnv"]` names the environment key.
Any unrecognized entry hits Go's `default` case, which reads
`TriggerMetadata`. -/
def entrySource (sc : ScalerConfig) (p : Params) (po : String) :
    List (String × String) × String :=
  if po == "triggerMetadata" then (sc.TriggerMetadata, p.Name)
  else if po == "authParams" then (sc.AuthParams, p.Name)
  else if po == "resolvedEnv" then
    (sc.ResolvedEnv, goGet sc.TriggerMetadata (p.Name ++ "FromEnv"))
  else (sc.TriggerMetadata, p.Name)

/-- The loop of Go `configParamValue` over the parsing order: the first entry
whose map contains the key with a non-empty value wins; `none` models the
`("", false)` fall-through return. -/
def configParamValueGo (sc : ScalerConfig) (p : Params) : List String → Option String
  | [] => none
  | po :: rest =>
    match mapLookup (entrySource sc p po).1 (entrySource sc p po).2 with
    | some param => if param != "" then some param else configParamValueGo sc p rest
    | none => configParamValueGo sc p rest

/-- Go `(sc *ScalerConfig).configParamValue(params)`. -/
def configParamValue (sc : ScalerConfig) (p : Params) : Option String :=
  configParamValueGo sc p p.ParsingOrder

/-- The closed universe of field shapes the engine dispatches on.  `str` is
the shape for which the raw string is directly assignable; `int` and `bool`
fall through to the generic `encoding/json` decode (Go's `reflect` does not
allow converting a string to a numeric or boolean type); `map` and `slice`
are the two container branches.  Go's `[]byte` / `[]rune` shapes, to which a
string is reflect-convertible, are outside this universe. -/
inductive FieldType where
  | str
  | int
  | bool
  | map (kt vt : FieldType)
  | slice (et : FieldType)
deriving DecidableEq

/-- Runtime value of a field of some `FieldType` shape.  A Go map value is
modelled as its entry list in insertion order; a nil map or slice is the
empty list. -/
inductive FieldValue where
  | str (s : String)
  | int (n : Int)
  | bool (b : Bool)
  | map (entries : List (FieldValue × FieldValue))
  | slice (elems : List FieldValue)

/-- Equality of map keys as used by Go's map assignment.  Go requires map key
types to be comparable, which excludes map and slice shapes, so only scalar
keys can occur. -/
def keyEq : FieldValue → FieldValue → Bool
  | .str a, .str b => a == b
  | .int a, .int b => a == b
  | .bool a, .bool b => a == b
  | _, _ => false

/-- The Go zero value of each field shape (`reflect.New(T).Elem()`). -/
def zeroValue : FieldType → FieldValue
  | .str => .str ""
  | .int => .int 0
  | .bool => .bool false
  | .map _ _ => .map []
  | .slice _ => .slice []

/-- Decimal digit-list to number accumulator. -/
def digitsToNat (ds : List Char) : Nat :=
  ds.foldl (fun a c => a * 10 + (c.toNat - 48)) 0

/-- Model of `json.Unmarshal` into a Go `int`: optional surrounding JSON
whitespace, an optional sign, and a decimal integer literal with no redundant
leading zero.  Fractions, exponents and any other JSON value are decode
errors, modelled as `none`. -/
def jsonUnmarshalInt (s : String) : Option Int :=
  let t := goTrim s
  let (neg, ds) :=
    match t.toList with
    | '-' :: rest => (true, rest)
    | cs => (false, cs)
  if ds.isEmpty then none
  else if !(ds.all Char.isDigit) then none
  else if ds.length > 1 && ds.headD '0' == '0' then none
  else some (if neg then -(digitsToNat ds : Int) else (digitsToNat ds : Int))

/-- Model of `json.Unmarshal` into a Go `bool`: the literals `true`/`false`
with optional surrounding JSON whitespace. -/
def jsonUnmarshalBool (s : String) : Option Bool :=
  let t := goTrim s
  if t == "true" then some true
  else if t == "false" then some false
  else none

/-- Go `field.SetMapIndex`: replace the value of an existing key, otherwise
append the new entry. -/
def setMapIndex (entries : List (FieldValue × FieldValue)) (k v : FieldValue) :
    List (FieldValue × FieldValue) :=
  if entries.any (fun pr => keyEq pr.1 k) then
    entries.map (fun pr => if keyEq pr.1 k then (pr.1, v) else pr)
  else entries ++ [(k, v)]

/-- Go `reflect.Append` on the slice held by the field (the non-slice case
cannot occur for a well-typed field). -/
def appendElem : FieldValue → FieldValue → FieldValue
  | .slice xs, e => .slice (xs ++ [e])
  | v, _ => v

/-- The map branch loop of Go `setConfigValueHelper`: the outer field was
already overwritten with a fresh map (`field.Set(reflect.MakeMap(...))`); each
comma-separated clause is trimmed, split on `=` into exactly two parts, its
trimmed key and value are converted through fresh zero-valued holders
(`reflect.New(...).Elem()`, created anew per iteration), and the entry is
inserted.  Any failure returns immediately with the entries inserted so far
(`acc`). -/
def mapElemsLoop (convK convV : String → FieldValue → FieldValue × Option String)
    (zk zv : FieldValue) :
    List String → List (FieldValue × FieldValue) →
    List (FieldValue × FieldValue) × Option String
  | [], acc => (acc, none)
  | s :: rest, acc =>
    let s' := goTrim s
    let kv := goSplit '=' s'
    if kv.length != 2 then
      (acc, some ("expected format key=value, got " ++ goQuote s'))
    else
      let key := goTrim (kv.headD "")
      let v := goTrim (kv.getD 1 "")
      match convK key zk with
      | (_, some e) => (acc, some ("map key " ++ goQuote key ++ ": " ++ e))
      | (kElem, none) =>
        match convV v zv with
        | (_, some e) =>
          (acc, some ("map key " ++ goQuote key ++ ", value " ++ goQuote v ++ ": " ++ e))
        | (vElem, none) => mapElemsLoop convK convV zk zv rest (setMapIndex acc kElem vElem)

/-- The slice branch loop of Go `setConfigValueHelper`: one element holder
(`elemIfc`) is allocated before the loop and reused across iterations; each
trimmed element is converted into it and the holder's value is appended to the
field.  A failure returns immediately with the field keeping the elements
appended so far. -/
def sliceElemsLoop (conv : String → FieldValue → FieldValue × Option String) :
    List String → FieldValue → FieldValue → Nat → FieldValue × Option String
  | [], _, field, _ => (field, none)
  | s :: rest, holder, field, i =>
    let s' := goTrim s
    match conv s' holder with
    | (_, some e) => (field, some ("slice element " ++ toString i ++ ": " ++ e))
    | (h', none) => sliceElemsLoop conv rest h' (appendElem field h') (i + 1)

/-- Go `setConfigValueHelper(valFromConfig, field)`, dispatching on the field
shape, with the field state passed explicitly (argument order: shape, raw
value, current field value; result: new field value and optional error).
Within this universe Go's `AssignableTo` test selects exactly the `str` shape
and its `ConvertibleTo` test adds nothing, so the if-chain of the source
collapses to the constructor dispatch below; `int` and `bool` take the
`CanInterface` branch (`json.Unmarshal`), `map` and `slice` their container
branches.  The final "unable to find matching parser" return of the source is
unreachable on this universe. -/
def setConfigValueHelper : FieldType → String → FieldValue → FieldValue × Option String
  | .str => fun val _field => (.str val, none)
  | .int => fun val field =>
    match jsonUnmarshalInt val with
    | some n => (.int n, none)
    | none => (field, some ("unable to unmarshal to field type int: " ++ val))
  | .bool => fun val field =>
    match jsonUnmarshalBool val with
    | some b => (.bool b, none)
    | none => (field, some ("unable to unmarshal to field type bool: " ++ val))
  | .map kt vt => fun val _field =>
    let r := mapElemsLoop (setConfigValueHelper kt) (setConfigValueHelper vt)
      (zeroValue kt) (zeroValue vt) (goSplit ',' val) []
    (.map r.1, r.2)
  | .slice et => fun val field =>
    sliceElemsLoop (setConfigValueHelper et) (goSplit ',' val) (zeroValue et) field 0

/-- The error-wrapping call of Go `setValue` around `setConfigValueHelper`:
`unable to set param %q value %q: %w`. -/
def setValueConvert (p : Params) (t : FieldType) (field : FieldValue) (v : String) :
    FieldValue × Option String :=
  match setConfigValueHelper t v field with
  | (f', some e) =>
    (f', some ("unable to set param " ++ goQuote p.Name ++ " value " ++ goQuote v ++ ": " ++ e))
  | (f', none) => (f', none)

/-- Go `(sc *ScalerConfig).setValue(field, params)` with the field's shape
made explicit.  The Go body tests, in order: value found and deprecated →
error; not found and non-empty default → use the default as the found value;
still not found and (optional or deprecated) → silently succeed; still not
found otherwise → missing-parameter error; then convert the chosen raw
value. -/
def setValue (sc : ScalerConfig) (t : FieldType) (field : FieldValue) (p : Params) :
    FieldValue × Option String :=
  match configParamValue sc p with
  | some valFromConfig =>
    if p.IsDeprecated then
      (field, some ("parameter " ++ goQuote p.Name ++ " is deprecated" ++ p.DeprecatedMessage))
    else setValueConvert p t field valFromConfig
  | none =>
    if p.Default != "" then setValueConvert p t field p.Default
    else if p.Optional || p.IsDeprecated then (field, none)
    else
      (field, some ("missing required parameter " ++ goQuote p.Name ++ " in " ++
        goFmtStrList p.ParsingOrder))

/-- The trimmed key of one tag clause: `tsplit[0] = TrimSpace(tsplit[0])` of
Go `paramsFromTag`. -/
def clauseKey (ts : String) : String :=
  goTrim ((goSplit '=' ts).headD "")

/-- The five clause keys recognized by the `switch` of Go `paramsFromTag`. -/
def recognizedKey (k : String) : Bool :=
  k == "optional" || k == "parsingOrder" || k == "name" || k == "deprecated" || k == "default"

/-- The clause loop of Go `paramsFromTag`: each comma-separated clause is
split on `=`; the trimmed first part selects the switch case (`clauseKey`);
values are the trimmed second part (`tsplit[1]`, further parts are ignored);
`parsingOrder` values are split on `;` with each token trimmed and appended;
bare `optional` sets the flag, bare `deprecated` sets the sentinel marker; any
other key is the fatal `unknown tag %s: %s` error. -/
def applyClauses (tag : String) : List String → Params → Except String Params
  | [], params => .ok params
  | ts :: rest, params =>
    if clauseKey ts == "optional" then
      applyClauses tag rest
        (if (goSplit '=' ts).length == 1 then { params with Optional := true }
         else { params with Optional := goTrim ((goSplit '=' ts).getD 1 "") == "true" })
    else if clauseKey ts == "parsingOrder" then
      applyClauses tag rest
        (if (goSplit '=' ts).length > 1 then
          { params with ParsingOrder :=
            params.ParsingOrder ++ (goSplit ';' ((goSplit '=' ts).getD 1 "")).map goTrim }
         else params)
    else if clauseKey ts == "name" then
      applyClauses tag rest
        (if (goSplit '=' ts).length > 1 then
          { params with Name := goTrim ((goSplit '=' ts).getD 1 "") }
         else params)
    else if clauseKey ts == "deprecated" then
      applyClauses tag rest
        (if (goSplit '=' ts).length == 1 then { params with Deprecated := "deprecated" }
         else { params with Deprecated := goTrim ((goSplit '=' ts).getD 1 "") })
    else if clauseKey ts == "default" then
      applyClauses tag rest
        (if (goSplit '=' ts).length > 1 then
          { params with Default := goTrim ((goSplit '=' ts).getD 1 "") }
         else params)
    else .error ("unknown tag " ++ clauseKey ts ++ ": " ++ tag)

/-- Go `paramsFromTag(tag, field)`: the descriptor starts from the field's own
identifier as the name and folds the tag's comma-separated clauses. -/
def paramsFromTag (tag : String) (fieldName : String) : Except String Params :=
  applyClauses tag (goSplit ',' tag) { Name := fieldName }

/-- One field of the target structure: its Go identifier, its `keda` tag text
(`""` models both an absent and an empty tag, which Go treats alike), its
shape and its current value. -/
structure Field where
  fieldName : String
  tag : String
  ftype : FieldType
  value : FieldValue

/-- The per-field body of the Go `TypedConfig` loop: skip untagged fields,
else parse the tag and, on success, run `setValue`; the returned field carries
the (possibly mutated) value, paired with that field's error if any. -/
def processField (sc : ScalerConfig) (f : Field) : Field × Option String :=
  if f.tag == "" then (f, none)
  else
    match paramsFromTag f.tag f.fieldName with
    | .error e => (f, some e)
    | .ok params =>
      match setValue sc f.ftype f.value params with
      | (v', r) => ({ f with value := v' }, r)

/-- The field loop of Go `TypedConfig`: every field is processed and the
per-field errors are collected in order without aborting. -/
def typedConfigLoop (sc : ScalerConfig) : List Field → List Field × List String
  | [] => ([], [])
  | f :: rest =>
    let pr := processField sc f
    let r := typedConfigLoop sc rest
    (pr.1 :: r.1, match pr.2 with | some e => e :: r.2 | none => r.2)

/-- Model of `k8s.io/apimachinery` `errors.NewAggregate` on the always
non-nil errors collected here: `nil` for an empty list, otherwise an
aggregate exposing exactly the collected errors. -/
def NewAggregate (errs : List String) : Option (List String) :=
  if errs = [] then none else some errs

/-- Go `(sc *ScalerConfig).TypedConfig(typedConfig)` on an already
dereferenced pointer to a structure (the non-pointer early return is outside
this model): the processed fields plus the aggregated error. -/
def TypedConfig (sc : ScalerConfig) (fields : List Field) :
    List Field × Option (List String) :=
  let r := typedConfigLoop sc fields
  (r.1, NewAggregate r.2)

/-- Specification-side view of one parsing-order entry: the value it resolves,
i.e. the looked-up value when present and non-empty, and `none` otherwise. -/
def entryResolves (sc : ScalerConfig) (p : Params) (po : String) : Option String :=
  match mapLookup (entrySource sc p po).1 (entrySource sc p po).2 with
  | some v => if v != "" then some v else none
  | none => none

/-! ### Helper lemmas -/

theorem cpvGo_cons (sc : ScalerConfig) (p : Params) (po : String) (rest : List String) :
    configParamValueGo sc p (po :: rest) =
      match entryResolves sc p po with
      | some v => some v
      | none => configParamValueGo sc p rest := by
  cases h : mapLookup (entrySource sc p po).1 (entrySource sc p po).2 with
  | none =>
    have he : entryResolves sc p po = none := by simp [entryResolves, h]
    rw [he]
    simp only [configParamValueGo, h]
  | some param =>
    by_cases hp : param = ""
    · have he : entryResolves sc p po = none := by simp [entryResolves, h, hp]
      rw [he]
      simp only [configParamValueGo, h]
      simp [hp]
    · have he : entryResolves sc p po = some param := by
        simp [entryResolves, h, bne_iff_ne.mpr hp]
      rw [he]
      simp only [configParamValueGo, h]
      simp [bne_iff_ne.mpr hp]

theorem cpvGo_some_iff (sc : ScalerConfig) (p : Params) (v : String) :
    ∀ l : List String,
      (configParamValueGo sc p l = some v ↔
        ∃ i, i < l.length ∧ entryResolves sc p (l.getD i "") = some v ∧
          ∀ j, j < i → entryResolves sc p (l.getD j "") = none) := by
  intro l
  induction l with
  | nil => simp [configParamValueGo]
  | cons po rest ih =>
    rw [cpvGo_cons]
    cases h : entryResolves sc p po with
    | some w =>
      constructor
      · intro hv
        refine ⟨0, by simp, ?_, fun j hj => absurd hj (Nat.not_lt_zero j)⟩
        rw [List.getD_cons_zero, h]
        exact hv
      · rintro ⟨i, hi, hfi, hprev⟩
        cases i with
        | zero => rw [List.getD_cons_zero, h] at hfi; exact hfi
        | succ n =>
          have h0 := hprev 0 (Nat.succ_pos n)
          rw [List.getD_cons_zero, h] at h0
          exact absurd h0 (by simp)
    | none =>
      constructor
      · intro hv
        obtain ⟨i, hi, hfi, hprev⟩ := ih.mp hv
        refine ⟨i + 1, Nat.succ_lt_succ hi, by simpa [List.getD_cons_succ] using hfi, ?_⟩
        intro j hj
        cases j with
        | zero => simpa [List.getD_cons_zero] using h
        | succ m => simpa [List.getD_cons_succ] using hprev m (Nat.lt_of_succ_lt_succ hj)
      · rintro ⟨i, hi, hfi, hprev⟩
        cases i with
        | zero =>
          rw [List.getD_cons_zero, h] at hfi
          exact absurd hfi (by simp)
        | succ n =>
          refine ih.mpr ⟨n, Nat.lt_of_succ_lt_succ hi, by simpa [List.getD_cons_succ] using hfi, ?_⟩
          intro j hj
          simpa [List.getD_cons_succ] using hprev (j + 1) (Nat.succ_lt_succ hj)

theorem cpvGo_none_iff (sc : ScalerConfig) (p : Params) :
    ∀ l : List String,
      (configParamValueGo sc p l = none ↔ ∀ po ∈ l, entryResolves sc p po = none) := by
  intro l
  induction l with
  | nil => simp [configParamValueGo]
  | cons po rest ih =>
    rw [cpvGo_cons]
    cases h : entryResolves sc p po with
    | some w => simp [h]
    | none => simpa [h] using ih

theorem entryResolves_spec (sc : ScalerConfig) (p : Params) (po : String) (v : String) :
    entryResolves sc p po = some v ↔
      (mapLookup (entrySource sc p po).1 (entrySource sc p po).2 = some v ∧ v ≠ "") := by
  unfold entryResolves
  cases h : mapLookup (entrySource sc p po).1 (entrySource sc p po).2 with
  | none => simp
  | some w =>
    by_cases hw : w = ""
    · subst hw
      simp only [bne_self_eq_false]
      constructor
      · intro hx; exact absurd hx (by simp)
      · rintro ⟨hx, hne⟩
        injection hx with hx
        exact absurd hx.symm hne
    · simp only [bne_iff_ne.mpr hw]
      constructor
      · intro hx
        simp only [if_true] at hx
        refine ⟨hx, ?_⟩
        injection hx with hx
        exact hx ▸ hw
      · rintro ⟨hx, hne⟩
        simpa using hx

/-! ### Claim theorems -/

/-- C9: converting the raw text `"key1=1,key2=2"` into a string-to-int map
field yields exactly the two entries `key1 -> 1` and `key2 -> 2`, and
converting `"1,2,3"` into an int-slice field yields exactly `[1,2,3]`;
whitespace around elements, keys and values is trimmed before element
conversion, so the space-padded variants convert to the same values. -/
theorem map_and_slice_round_trip :
    (setConfigValueHelper (.map .str .int) "key1=1,key2=2" (zeroValue (.map .str .int)) =
      (.map [(.str "key1", .int 1), (.str "key2", .int 2)], none)) ∧
    (setConfigValueHelper (.slice .int) "1,2,3" (zeroValue (.slice .int)) =
      (.slice [.int 1, .int 2, .int 3], none)) ∧
    (setConfigValueHelper (.map .str .int) " key1 = 1 , key2 = 2 " (zeroValue (.map .str .int)) =
      (.map [(.str "key1", .int 1), (.str "key2", .int 2)], none)) ∧
    (setConfigValueHelper (.slice .int) " 1 , 2 , 3 " (zeroValue (.slice .int)) =
      (.slice [.int 1, .int 2, .int 3], none)) :=
  ⟨rfl, rfl, rfl, rfl⟩

/-- C2 (corrected), counterexample to the claim as stated: a deprecated field
that resolves no value but carries the non-empty default `"5"` materializes
successfully with the field set to `5`, not left at its zero value. -/
theorem deprecated_default_counterexample :
    setValue ⟨[], [], []⟩ .int (.int 0)
        { Name := "x", ParsingOrder := ["triggerMetadata"], Default := "5",
          Deprecated := "deprecated" } =
      (FieldValue.int 5, none) ∧
    FieldValue.int 5 ≠ zeroValue FieldType.int :=
  ⟨rfl, by simp [zeroValue]⟩

/-- C2 (amended): a deprecated field whose name resolves to no value in any
configured source and that has no non-empty default materializes successfully
with the field untouched (hence left at its zero value), regardless of the
optional flag. -/
theorem deprecated_missing_no_default_silently_succeeds (sc : ScalerConfig) (p : Params)
    (t : FieldType) (field : FieldValue)
    (hdep : p.Deprecated ≠ "") (hres : configParamValue sc p = none) (hdef : p.Default = "") :
    setValue sc t field p = (field, none) := by
  have hd : p.IsDeprecated = true := by simp [Params.IsDeprecated, bne_iff_ne, hdep]
  simp [setValue, hres, hdef, hd]

/-- Witness for the amended C2 theorem at a concrete deprecated, absent,
default-free field. -/
theorem deprecated_missing_no_default_silently_succeeds_witness :
    setValue ⟨[], [], []⟩ FieldType.str (zeroValue FieldType.str)
        { Name := "x", ParsingOrder := ["triggerMetadata"], Deprecated := "deprecated" } =
      (zeroValue FieldType.str, none) :=
  deprecated_missing_no_default_silently_succeeds ⟨[], [], []⟩
    { Name := "x", ParsingOrder := ["triggerMetadata"], Deprecated := "deprecated" }
    FieldType.str (zeroValue FieldType.str) (by decide) rfl rfl

/-- C5: a deprecated field for which a value resolves fails with the message
`parameter "<name>" is deprecated`, suffixed by `: <marker>` exactly when the
marker differs from the bare sentinel `deprecated`, and the field is left
untouched. -/
theorem deprecated_supplied_value_error (sc : ScalerConfig) (p : Params) (t : FieldType)
    (field : FieldValue) (v : String)
    (hres : configParamValue sc p = some v) (hdep : p.Deprecated ≠ "") :
    setValue sc t field p =
      (field, some ("parameter " ++ goQuote p.Name ++ " is deprecated" ++
        (if p.Deprecated = "deprecated" then "" else ": " ++ p.Deprecated))) := by
  have hd : p.IsDeprecated = true := by simp [Params.IsDeprecated, bne_iff_ne, hdep]
  by_cases hs : p.Deprecated = "deprecated" <;>
    simp [setValue, hres, hd, Params.DeprecatedMessage, hs]

/-- Witness for C5 at a concrete resolving deprecated field with an
explanatory marker. -/
theorem deprecated_supplied_value_error_witness :
    setValue ⟨[("x", "v")], [], []⟩ FieldType.str (FieldValue.str "")
        { Name := "x", ParsingOrder := ["triggerMetadata"], Deprecated := "use y instead" } =
      (FieldValue.str "", some "parameter \"x\" is deprecated: use y instead") := by
  have h := deprecated_supplied_value_error ⟨[("x", "v")], [], []⟩
    { Name := "x", ParsingOrder := ["triggerMetadata"], Deprecated := "use y instead" }
    FieldType.str (FieldValue.str "") "v" rfl (by decide)
  exact h

/-- C6: a field that is neither optional nor deprecated, has no non-empty
default, and resolves no value fails with
`missing required parameter "<name>" in <parsing order list>`, leaving the
field untouched. -/
theorem missing_required_parameter_error (sc : ScalerConfig) (p : Params) (t : FieldType)
    (field : FieldValue)
    (hopt : p.Optional = false) (hdep : p.Deprecated = "") (hdef : p.Default = "")
    (hres : configParamValue sc p = none) :
    setValue sc t field p =
      (field, some ("missing required parameter " ++ goQuote p.Name ++ " in " ++
        goFmtStrList p.ParsingOrder)) := by
  have hd : p.IsDeprecated = false := by simp [Params.IsDeprecated, hdep]
  simp [setValue, hres, hdef, hd, hopt]

/-- Witness for C6 mirroring the repository's missing-parameter test. -/
theorem missing_required_parameter_error_witness :
    setValue ⟨[], [], []⟩ FieldType.str (FieldValue.str "")
        { Name := "stringVal", ParsingOrder := ["triggerMetadata"] } =
      (FieldValue.str "", some "missing required parameter \"stringVal\" in [triggerMetadata]") := by
  have h := missing_required_parameter_error ⟨[], [], []⟩
    { Name := "stringVal", ParsingOrder := ["triggerMetadata"] }
    FieldType.str (FieldValue.str "") rfl rfl rfl rfl
  exact h

/-- C10: a parsing-order entry that is none of the three recognized source
tokens is not skipped and does not fail: it behaves exactly like a
`triggerMetadata` entry, looking the descriptor's name up in
`TriggerMetadata`. -/
theorem unknown_parsing_order_token_reads_trigger_metadata (sc : ScalerConfig) (p : Params)
    (po : String) (rest : List String)
    (h1 : po ≠ "triggerMetadata") (h2 : po ≠ "resolvedEnv") (h3 : po ≠ "authParams") :
    configParamValueGo sc p (po :: rest) =
      configParamValueGo sc p ("triggerMetadata" :: rest) ∧
    entrySource sc p po = (sc.TriggerMetadata, p.Name) := by
  have e1 : (po == "triggerMetadata") = false := beq_eq_false_iff_ne.mpr h1
  have e2 : (po == "authParams") = false := beq_eq_false_iff_ne.mpr h3
  have e3 : (po == "resolvedEnv") = false := beq_eq_false_iff_ne.mpr h2
  refine ⟨?_, ?_⟩
  · simp [configParamValueGo, entrySource, e1, e2, e3]
  · simp [entrySource, e1, e2, e3]

/-- Witness for C10: a bogus token resolves the same value a
`triggerMetadata` entry would. -/
theorem unknown_parsing_order_token_reads_trigger_metadata_witness :
    configParamValueGo ⟨[("x", "v")], [], []⟩ { Name := "x" } ["bogus"] =
      configParamValueGo ⟨[("x", "v")], [], []⟩ { Name := "x" } ["triggerMetadata"] ∧
    configParamValueGo ⟨[("x", "v")], [], []⟩ { Name := "x" } ["bogus"] = some "v" := by
  have h := unknown_parsing_order_token_reads_trigger_metadata ⟨[("x", "v")], [], []⟩
    { Name := "x" } "bogus" [] (by decide) (by decide) (by decide)
  exact ⟨h.1, rfl⟩

theorem sliceElemsLoop_extends (conv : String → FieldValue → FieldValue × Option String) :
    ∀ (l : List String) (holder : FieldValue) (xs : List FieldValue) (i : Nat),
      ∃ ys, (sliceElemsLoop conv l holder (.slice xs) i).1 = .slice (xs ++ ys) := by
  intro l
  induction l with
  | nil =>
    intro holder xs i
    exact ⟨[], by simp [sliceElemsLoop]⟩
  | cons s rest ih =>
    intro holder xs i
    cases hc : conv (goTrim s) holder with
    | mk h' e =>
      cases e with
      | some msg =>
        refine ⟨[], ?_⟩
        simp [sliceElemsLoop, hc]
      | none =>
        obtain ⟨ys, hy⟩ := ih h' (xs ++ [h']) (i + 1)
        refine ⟨h' :: ys, ?_⟩
        have happ : appendElem (FieldValue.slice xs) h' = FieldValue.slice (xs ++ [h']) := rfl
        simp only [sliceElemsLoop, hc, happ]
        rw [hy]
        simp

theorem typedConfigLoop_spec (sc : ScalerConfig) :
    ∀ fs : List Field,
      typedConfigLoop sc fs =
        (fs.map (fun f => (processField sc f).1),
         fs.filterMap (fun f => (processField sc f).2)) := by
  intro fs
  induction fs with
  | nil => rfl
  | cons f rest ih =>
    simp only [typedConfigLoop, ih, List.map_cons, List.filterMap_cons]
    cases hp : (processField sc f).2 with
    | none => simp [hp]
    | some e => simp [hp]

theorem applyClauses_unknown (tag : String) :
    ∀ l : List String,
      (∃ ts ∈ l, recognizedKey (clauseKey ts) = false) →
      ∃ k, recognizedKey k = false ∧ (∃ ts ∈ l, clauseKey ts = k) ∧
        ∀ params : Params,
          applyClauses tag l params = Except.error ("unknown tag " ++ k ++ ": " ++ tag) := by
  intro l
  induction l with
  | nil =>
    rintro ⟨ts, hmem, -⟩
    cases hmem
  | cons ts rest ih =>
    intro hex
    by_cases hr : recognizedKey (clauseKey ts) = false
    · refine ⟨clauseKey ts, hr, ⟨ts, List.mem_cons_self ts rest, rfl⟩, ?_⟩
      intro params
      simp only [recognizedKey, Bool.or_eq_false_iff, beq_eq_false_iff_ne] at hr
      obtain ⟨⟨⟨⟨n1, n2⟩, n3⟩, n4⟩, n5⟩ := hr
      simp [applyClauses, beq_eq_false_iff_ne.mpr n1, beq_eq_false_iff_ne.mpr n2,
        beq_eq_false_iff_ne.mpr n3, beq_eq_false_iff_ne.mpr n4, beq_eq_false_iff_ne.mpr n5]
    · have hrt : recognizedKey (clauseKey ts) = true := by
        cases hq : recognizedKey (clauseKey ts) with
        | false => exact absurd hq hr
        | true => rfl
      obtain ⟨ts', hmem', hts'⟩ := hex
      have hmem2 : ts' ∈ rest := by
        cases List.mem_cons.mp hmem' with
        | inl he =>
          exfalso
          rw [he] at hts'
          rw [hts'] at hrt
          cases hrt
        | inr hmr => exact hmr
      obtain ⟨k, hk, ⟨ts2, hm2, hc2⟩, herr⟩ := ih ⟨ts', hmem2, hts'⟩
      refine ⟨k, hk, ⟨ts2, List.mem_cons_of_mem ts hm2, hc2⟩, ?_⟩
      intro params
      have ho := hrt
      simp only [recognizedKey, Bool.or_eq_true, beq_iff_eq] at ho
      rcases ho with ((((h1 | h1) | h1) | h1) | h1) <;> simp [applyClauses, h1, herr]

/-- C3: value resolution walks the parsing order in the given sequence; an
entry resolves only when its key is present in its source map with a
non-empty value (an empty string counts as absent); the first resolving entry
wins with no further entry consulted; an empty parsing order never
resolves. -/
theorem configParamValue_first_resolving_entry_wins (sc : ScalerConfig) (p : Params) :
    configParamValueGo sc p [] = none ∧
    (∀ po v, entryResolves sc p po = some v ↔
      (mapLookup (entrySource sc p po).1 (entrySource sc p po).2 = some v ∧ v ≠ "")) ∧
    (∀ v, configParamValue sc p = some v ↔
      ∃ i, i < p.ParsingOrder.length ∧
        entryResolves sc p (p.ParsingOrder.getD i "") = some v ∧
        ∀ j, j < i → entryResolves sc p (p.ParsingOrder.getD j "") = none) ∧
    (configParamValue sc p = none ↔ ∀ po ∈ p.ParsingOrder, entryResolves sc p po = none) := by
  refine ⟨rfl, entryResolves_spec sc p, ?_, ?_⟩
  · intro v
    exact cpvGo_some_iff sc p v p.ParsingOrder
  · exact cpvGo_none_iff sc p p.ParsingOrder

/-- C4: a `resolvedEnv` parsing-order entry is resolved through the
indirection `ResolvedEnv[TriggerMetadata[Name + "FromEnv"]]`, and the
descriptor's own name is never used directly as a `ResolvedEnv` key: whenever
the indirect key differs from the name, changing what `ResolvedEnv`
associates to the name cannot change the resolution. -/
theorem resolvedEnv_uses_fromEnv_indirection (sc sc' : ScalerConfig) (p : Params)
    (rest : List String)
    (htm : sc'.TriggerMetadata = sc.TriggerMetadata)
    (hoff : ∀ q, q ≠ p.Name → mapLookup sc'.ResolvedEnv q = mapLookup sc.ResolvedEnv q)
    (hneq : goGet sc.TriggerMetadata (p.Name ++ "FromEnv") ≠ p.Name) :
    (configParamValueGo sc p ("resolvedEnv" :: rest) =
      match mapLookup sc.ResolvedEnv (goGet sc.TriggerMetadata (p.Name ++ "FromEnv")) with
      | some v => if v != "" then some v else configParamValueGo sc p rest
      | none => configParamValueGo sc p rest) ∧
    configParamValueGo sc' p ["resolvedEnv"] = configParamValueGo sc p ["resolvedEnv"] := by
  have hes : entrySource sc p "resolvedEnv" =
      (sc.ResolvedEnv, goGet sc.TriggerMetadata (p.Name ++ "FromEnv")) := by
    simp [entrySource]
  have hes' : entrySource sc' p "resolvedEnv" =
      (sc'.ResolvedEnv, goGet sc'.TriggerMetadata (p.Name ++ "FromEnv")) := by
    simp [entrySource]
  constructor
  · simp only [configParamValueGo, hes]
  · simp only [configParamValueGo, hes, hes', htm]
    rw [hoff _ hneq]

/-- Witness for C4: with the indirect key `ekey` differing from the name `x`,
adding or removing a direct `x` entry in `ResolvedEnv` leaves resolution
unchanged, and the resolved value is the one stored under `ekey`. -/
theorem resolvedEnv_uses_fromEnv_indirection_witness :
    configParamValueGo ⟨[("xFromEnv", "ekey")], [("ekey", "v1")], []⟩
        { Name := "x" } ["resolvedEnv"] =
      configParamValueGo ⟨[("xFromEnv", "ekey")], [("ekey", "v1"), ("x", "direct")], []⟩
        { Name := "x" } ["resolvedEnv"] ∧
    configParamValueGo ⟨[("xFromEnv", "ekey")], [("ekey", "v1"), ("x", "direct")], []⟩
        { Name := "x" } ["resolvedEnv"] = some "v1" := by
  have hoff : ∀ q, q ≠ ({ Name := "x" } : Params).Name →
      mapLookup [("ekey", "v1")] q = mapLookup [("ekey", "v1"), ("x", "direct")] q := by
    intro q hq
    by_cases he : q = "ekey"
    · subst he; rfl
    · have h1 : ("ekey" == q) = false := beq_eq_false_iff_ne.mpr (Ne.symm he)
      have h2 : ("x" == q) = false := beq_eq_false_iff_ne.mpr (Ne.symm hq)
      simp [mapLookup, List.find?, h1, h2]
  have h := resolvedEnv_uses_fromEnv_indirection
    ⟨[("xFromEnv", "ekey")], [("ekey", "v1"), ("x", "direct")], []⟩
    ⟨[("xFromEnv", "ekey")], [("ekey", "v1")], []⟩
    { Name := "x" } [] rfl hoff (by decide)
  exact ⟨h.2, rfl⟩

/-- C1 (corrected), counterexample to the claim as stated: materializing a
string-to-int map field from the raw value `"key1=1,bad"` returns an error,
yet the field does not keep its prior (zero) value: it is left holding the
partially populated map with the single entry `key1 -> 1`. -/
theorem map_error_partial_population_counterexample :
    ((setValue ⟨[("mapVal", "key1=1,bad")], [], []⟩ (.map .str .int) (.map [])
        { Name := "mapVal", ParsingOrder := ["triggerMetadata"] }).2).isSome = true ∧
    (setValue ⟨[("mapVal", "key1=1,bad")], [], []⟩ (.map .str .int) (.map [])
        { Name := "mapVal", ParsingOrder := ["triggerMetadata"] }).1 =
      FieldValue.map [(.str "key1", .int 1)] ∧
    FieldValue.map [(.str "key1", .int 1)] ≠ FieldValue.map [] :=
  ⟨rfl, rfl, by simp⟩

/-- C1 (amended): on a materialization error a scalar-shaped field (string,
int, bool) is left untouched, as is any field when the error is a policy
error (deprecation, missing required parameter); but a map-shaped field's
outcome ignores its prior value entirely (the field is overwritten with a
freshly built map even on error), and a slice-shaped field keeps its prior
elements extended by the elements converted before any failure.  Element
key/value conversions go through fresh holders, so a failing element is never
partially inserted. -/
theorem conversion_error_field_effects (sc : ScalerConfig) (p : Params)
    (t kt vt et : FieldType) (val : String) (field f1 f2 : FieldValue)
    (xs : List FieldValue) :
    ((setConfigValueHelper .str val field).2 = none) ∧
    ((setConfigValueHelper .int val field).2.isSome = true →
      (setConfigValueHelper .int val field).1 = field) ∧
    ((setConfigValueHelper .bool val field).2.isSome = true →
      (setConfigValueHelper .bool val field).1 = field) ∧
    (setConfigValueHelper (.map kt vt) val f1 = setConfigValueHelper (.map kt vt) val f2) ∧
    (∃ ys, (setConfigValueHelper (.slice et) val (.slice xs)).1 = .slice (xs ++ ys)) ∧
    (configParamValue sc p = none → p.Default = "" → (setValue sc t field p).1 = field) ∧
    (∀ v, configParamValue sc p = some v → p.IsDeprecated = true →
      (setValue sc t field p).1 = field) := by
  refine ⟨rfl, ?_, ?_, rfl, ?_, ?_, ?_⟩
  · intro h
    cases hj : jsonUnmarshalInt val with
    | some n => simp [setConfigValueHelper, hj] at h
    | none => simp [setConfigValueHelper, hj]
  · intro h
    cases hj : jsonUnmarshalBool val with
    | some b => simp [setConfigValueHelper, hj] at h
    | none => simp [setConfigValueHelper, hj]
  · exact sliceElemsLoop_extends (setConfigValueHelper et) (goSplit ',' val) (zeroValue et) xs 0
  · intro hres hdef
    by_cases ho : (p.Optional || p.IsDeprecated) = true <;>
      simp [setValue, hres, hdef, ho]
  · intro v hres hdep
    simp [setValue, hres, hdep]

/-- Witness for the amended C1 theorem: a failed int conversion leaves the
field holding its prior value. -/
theorem conversion_error_field_effects_witness :
    (setConfigValueHelper FieldType.int "x" (FieldValue.int 7)).1 = FieldValue.int 7 := by
  have h := conversion_error_field_effects ⟨[], [], []⟩ {} FieldType.int FieldType.str
    FieldType.str FieldType.str "x" (FieldValue.int 7) (FieldValue.int 0) (FieldValue.int 0) []
  exact h.2.1 rfl

/-- C7: the top-level materialization processes every field independently
(so later fields are processed even when earlier ones fail), returns `none`
exactly when no per-field error was collected, and otherwise returns an
aggregate enumerating every individual per-field error in order. -/
theorem typedConfig_processes_all_fields_and_aggregates (sc : ScalerConfig)
    (fields : List Field) :
    (TypedConfig sc fields).1 = fields.map (fun f => (processField sc f).1) ∧
    (TypedConfig sc fields).2 =
      NewAggregate (fields.filterMap (fun f => (processField sc f).2)) ∧
    ((TypedConfig sc fields).2 = none ↔ ∀ f ∈ fields, (processField sc f).2 = none) ∧
    (∀ l, (TypedConfig sc fields).2 = some l →
      l = fields.filterMap (fun f => (processField sc f).2)) := by
  have hl := typedConfigLoop_spec sc fields
  refine ⟨?_, ?_, ?_, ?_⟩
  · simp [TypedConfig, hl]
  · simp [TypedConfig, hl]
  · simp only [TypedConfig, hl]
    constructor
    · intro h
      by_cases he : fields.filterMap (fun f => (processField sc f).2) = []
      · intro f hf
        exact List.filterMap_eq_nil_iff.mp he f hf
      · exfalso
        simp [NewAggregate, he] at h
    · intro h
      have he : fields.filterMap (fun f => (processField sc f).2) = [] :=
        List.filterMap_eq_nil_iff.mpr h
      simp [NewAggregate, he]
  · intro l hsome
    simp only [TypedConfig, hl] at hsome
    unfold NewAggregate at hsome
    by_cases he : fields.filterMap (fun f => (processField sc f).2) = []
    · rw [if_pos he] at hsome
      cases hsome
    · rw [if_neg he] at hsome
      injection hsome with hsome
      exact hsome.symm

/-- C8: a directive containing a clause whose trimmed key is not one of the
five recognized keys fails to parse with the error `unknown tag <key>: <full
directive text>`, and no value is materialized into a field carrying such a
directive. -/
theorem unknown_directive_clause_fails (tag fieldName : String)
    (h : ∃ ts ∈ goSplit ',' tag, recognizedKey (clauseKey ts) = false) :
    ∃ k, recognizedKey k = false ∧ (∃ ts ∈ goSplit ',' tag, clauseKey ts = k) ∧
      paramsFromTag tag fieldName = Except.error ("unknown tag " ++ k ++ ": " ++ tag) ∧
      ∀ (sc : ScalerConfig) (f : Field), f.tag = tag → (processField sc f).1 = f := by
  obtain ⟨k, hk, hmem, herr⟩ := applyClauses_unknown tag (goSplit ',' tag) h
  refine ⟨k, hk, hmem, herr { Name := fieldName }, ?_⟩
  intro sc f hf
  unfold processField
  by_cases he : f.tag = ""
  · simp [he]
  · rw [if_neg (by simpa using he)]
    simp [hf, paramsFromTag, herr]

/-- Witness for C8 at the concrete directive `name=x,bogus=1`. -/
theorem unknown_directive_clause_fails_witness :
    ∃ k, recognizedKey k = false ∧
      paramsFromTag "name=x,bogus=1" "F" =
        Except.error ("unknown tag " ++ k ++ ": " ++ "name=x,bogus=1") := by
  obtain ⟨k, hk, -, herr, -⟩ := unknown_directive_clause_fails "name=x,bogus=1" "F" (by decide)
  exact ⟨k, hk, herr⟩

end ScalersConfig
